import Mathlib

/-
Verification of the pdfimposer page-sequencing and geometry-configuration engine.

This file gives a shallow embedding, in Lean 4, of the parts of the
pdfimposer package that decide, for every output sheet slot, which source
page (or blank) goes there:
  - the constants (page-format table, orientation constants, two-sided flip),
  - the configuration surface of AbstractConverter
    (set_output_format, get_output_format, orientations),
  - the orientation reconciler (StreamConverter.__fix_page_orientation),
  - the three sequence generators (booklet, linearize, reduce), and
  - the sheet-assembly loop (StreamConverter.__do_reduce) and the
    linearize page-extraction loop (StreamConverter.linearize).

Pages are modelled as Option Nat: some i is source page index i, none is
the blank-page sentinel (Python None).  Python lists become Lean lists;
the pop-based while loop of the booklet arranger, which raises IndexError
when a pop hits an empty list, returns Option (none = IndexError).
-/

namespace PdfImposer

/-- Orientation constants from pdfimposer._constants.PageOrientation:
PORTRAIT is the Python value False and LANDSCAPE is True. -/
def PORTRAIT : Bool := false

/-- Landscape orientation constant (Python value True). -/
def LANDSCAPE : Bool := true

/-- Two-sided flip constants from pdfimposer._constants.TwoSidedFlip. -/
inductive TwoSidedFlip where
  | shortEdge : TwoSidedFlip
  | longEdge : TwoSidedFlip
deriving DecidableEq, Repr

/-- The PAGE_FORMATS table from pdfimposer._constants: name, width, height
in points. -/
def PAGE_FORMATS : List (String × Nat × Nat) :=
  [("A3", 842, 1192),
   ("A4", 595, 842),
   ("A5", 420, 595),
   ("Tabloid", 792, 1224),
   ("Letter", 612, 792),
   ("Legal", 612, 1008)]

/-- AbstractConverter.get_layout: the string representation WxH of the
layout. -/
def get_layout (pagesInWidth pagesInHeight : Nat) : String :=
  toString pagesInWidth ++ "x" ++ toString pagesInHeight

/-- AbstractConverter.set_output_format: looks the requested name up in
the PAGE_FORMATS table; on success stores (width, height) of the output
page, otherwise raises UnknownFormatError carrying the name. -/
def set_output_format (page_format : String) : Except String (Nat × Nat) :=
  match PAGE_FORMATS.find? (fun e => e.fst == page_format) with
  | some e => Except.ok (e.snd.fst, e.snd.snd)
  | none => Except.error page_format

/-- Python runtime values as far as the latent get_output_format defect
needs them: an int, or a bound-method object.  In Python, comparing an
int with a bound method with == yields False. -/
inductive PyVal where
  | pyInt : Nat → PyVal
  | boundMethod : String → PyVal
deriving DecidableEq, Repr

/-- Python == on such values: ints compare by value, a bound method never
equals an int (both int.__eq__ and method __eq__ return NotImplemented,
so == falls back to identity, which fails across types). -/
def pyEq : PyVal → PyVal → Bool
  | PyVal.pyInt a, PyVal.pyInt b => a == b
  | PyVal.boundMethod a, PyVal.boundMethod b => a == b
  | _, _ => false

/-- AbstractConverter.get_output_format, as written in the source: it
compares each table entry dimensions tuple with the tuple
(self.get_output_width, self.get_output_height) - the two METHOD OBJECTS,
not their call results (the parentheses are missing in the source).  The
arguments w and h are the stored output width and height; the body never
consults them.  Returns the first matching name; none models the
StopIteration escaping from next() on an exhausted generator. -/
def get_output_format (w h : Nat) : Option String :=
  (PAGE_FORMATS.find? (fun e =>
      pyEq (PyVal.pyInt e.snd.fst) (PyVal.boundMethod "get_output_width") &&
      pyEq (PyVal.pyInt e.snd.snd) (PyVal.boundMethod "get_output_height"))).map
    (fun e => e.fst)

/-- Shared logic of AbstractConverter.get_input_orientation and
_get_output_orientation: height > width is portrait, height < width is
landscape, equal is None (square). -/
def orientationOf (w h : Nat) : Option Bool :=
  if h > w then some PORTRAIT
  else if h < w then some LANDSCAPE
  else none

/-- AbstractConverter._set_output_orientation: swap output width and
height when the requested orientation disagrees with the current one. -/
def set_output_orientation (target : Bool) (out : Nat × Nat) : Nat × Nat :=
  if (target == PORTRAIT && out.fst > out.snd)
      || (target == LANDSCAPE && out.snd > out.fst) then
    (out.snd, out.fst)
  else
    out

/-- The comparator __is_two_times nested in
StreamConverter.__fix_page_orientation_for_booklet. -/
def is_two_times (op1 op2 : Nat) : Bool :=
  if op1 == 2 * op2 then true else false

/-- The comparator __is_half nested in
StreamConverter.__fix_page_orientation_for_linearize. -/
def is_half (op1 op2 : Nat) : Bool :=
  if op2 == 2 * op1 then true else false

/-- StreamConverter.__fix_page_orientation: adapt the output page
orientation to the layout, or raise MismatchingOrientationsError
(modelled as Except.error carrying the layout string).  inOrient is the
input page orientation, out the current output (width, height). -/
def fix_page_orientation (cmp : Nat → Nat → Bool) (pagesInWidth pagesInHeight : Nat)
    (inOrient : Option Bool) (out : Nat × Nat) : Except String (Nat × Nat) :=
  if cmp pagesInWidth pagesInHeight then
    if inOrient == some PORTRAIT then
      if orientationOf out.fst out.snd == some PORTRAIT then
        Except.ok (set_output_orientation LANDSCAPE out)
      else
        Except.ok out
    else
      Except.error (get_layout pagesInWidth pagesInHeight)
  else if cmp pagesInHeight pagesInWidth then
    if inOrient == some LANDSCAPE then
      if orientationOf out.fst out.snd == some LANDSCAPE then
        Except.ok (set_output_orientation PORTRAIT out)
      else
        Except.ok out
    else
      Except.error (get_layout pagesInWidth pagesInHeight)
  else
    if inOrient == some LANDSCAPE then
      if orientationOf out.fst out.snd == some PORTRAIT then
        Except.ok (set_output_orientation LANDSCAPE out)
      else
        Except.ok out
    else
      if orientationOf out.fst out.snd == some LANDSCAPE then
        Except.ok (set_output_orientation PORTRAIT out)
      else
        Except.ok out

/-- The Python pop() of a list: returns the last element together with
the remaining list, or fails (IndexError) on an empty list.  Defined
structurally so that it computes. -/
def splitLast {α : Type} : List α → Option (List α × α)
  | [] => none
  | [a] => some ([], a)
  | a :: b :: rest =>
    match splitLast (b :: rest) with
    | none => none
    | some (ys, last) => some (a :: ys, last)

/-- The append_and_copy helper nested in
StreamConverter.__get_sequence_for_booklet: when copy_pages is set, the
two-page group is appended int(pages_in_sheet / 2) times, otherwise
once. -/
def append_and_copy (copy : Bool) (pagesInSheet : Nat) (pages : List (Option Nat)) :
    List (Option Nat) :=
  if copy then
    (List.range (pagesInSheet / 2)).flatMap (fun _ => pages)
  else
    pages

/-- A successful pop returns the list split at its last element. -/
theorem splitLast_eq {α : Type} :
    ∀ {l ys : List α} {a : α}, splitLast l = some (ys, a) → l = ys ++ [a] := by
  intro l
  induction l with
  | nil => intro ys a h; simp [splitLast] at h
  | cons x xs ih =>
    intro ys a h
    cases xs with
    | nil =>
      simp [splitLast] at h
      simp [h.left, h.right]
    | cons y ys' =>
      simp only [splitLast] at h
      cases hz : splitLast (y :: ys') with
      | none => rw [hz] at h; simp at h
      | some p =>
        rw [hz] at h
        simp at h
        have := @ih p.fst p.snd (by rw [hz])
        rw [← h.left, ← h.right, this]
        simp

/-- The while loop of StreamConverter.__get_sequence_for_booklet: while
the page list is nonempty, pop the last and the first element as one
group, then the new first and new last element as the next group.  Each
pop on an empty list is a Python IndexError, modelled as none. -/
def booklet_arrange (copy : Bool) (pagesInSheet : Nat) :
    List (Option Nat) → Option (List (Option Nat))
  | [] => some []
  | x :: xs =>
    match h1 : splitLast (x :: xs) with
    | none => none
    | some ([], _) => none
    | some ([_], _) => none
    | some (b :: e :: l3, a) =>
      match h2 : splitLast l3 with
      | none => none
      | some (l4, d) =>
        match booklet_arrange copy pagesInSheet l4 with
        | none => none
        | some rest =>
          some (append_and_copy copy pagesInSheet [a, b] ++
                (append_and_copy copy pagesInSheet [e, d] ++ rest))
  termination_by l => l.length
  decreasing_by
    have e1 := splitLast_eq h1
    have e2 := splitLast_eq h2
    rw [e1, e2]
    simp
    omega

/-- StreamConverter.__get_sequence_for_booklet: pad the page list
[0 .. n_pages-1] at its tail with None up to a multiple of 4, then
arrange in booklet order with the pop-based while loop. -/
def get_sequence_for_booklet (copy : Bool) (pagesInSheet n_pages : Nat) :
    Option (List (Option Nat)) :=
  let n_missing_pages := if n_pages % 4 = 0 then 0 else 4 - n_pages % 4
  let pages := (List.range n_pages).map (fun p => some p) ++
      (List.range n_missing_pages).map (fun _ => none)
  booklet_arrange copy pagesInSheet pages

/-- The append_and_remove_copies helper nested in
StreamConverter.__get_sequence_for_linearize: append the two target
positions, and with copy_pages also pad with pages_in_sheet - 2 None
entries. -/
def append_and_remove_copies (copy : Bool) (pagesInSheet : Nat)
    (pages : List (Option Nat)) : List (Option Nat) :=
  pages ++
    (if copy then (List.range (pagesInSheet - pages.length)).map (fun _ => none)
     else [])

/-- StreamConverter.__get_sequence_for_linearize (booklet=True): walk i
over range(0, page_count * pages_in_sheet, 4) - that is, i = 4*j for
j < ceil(page_count * pages_in_sheet / 4) - and append the target
positions [i/2, i/2] then [i/2+1, i/2+2].  The try/except IndexError in
the source wraps code that performs no list indexing, so it never
fires and is not modelled. -/
def get_sequence_for_linearize (copy : Bool) (pagesInSheet page_count : Nat) :
    List (Option Nat) :=
  (List.range ((page_count * pagesInSheet + 3) / 4)).flatMap (fun j =>
    append_and_remove_copies copy pagesInSheet
        [some ((4 * j) / 2), some ((4 * j) / 2)] ++
      append_and_remove_copies copy pagesInSheet
        [some ((4 * j) / 2 + 1), some ((4 * j) / 2 + 2)])

/-- StreamConverter.__get_sequence_for_reduce: with copy_pages every
source page is appended pages_in_sheet times; otherwise the identity
order, padded at the tail with None when the page count is not a
multiple of pages_in_sheet. -/
def get_sequence_for_reduce (copy : Bool) (pagesInSheet page_count : Nat) :
    List (Option Nat) :=
  if copy then
    (List.range page_count).flatMap (fun page =>
      (List.range pagesInSheet).map (fun _ => some page))
  else
    let sequence := (List.range page_count).map (fun p => some p)
    if sequence.length % pagesInSheet ≠ 0 then
      sequence ++
        (List.range (pagesInSheet - sequence.length % pagesInSheet)).map
          (fun _ => none)
    else
      sequence

/-- The inner slot loop of StreamConverter.__do_reduce: fill the given
number of grid slots of one sheet.  A slot is filled from
sequence[current_page] - and current_page advances - exactly when
current_page is in range and the entry is not None; otherwise the slot
stays blank and current_page does NOT advance (the source only
increments current_page inside the guard).  Returns the slot contents
(one entry per slot, none = blank slot) and the new current_page. -/
def fill_slots (sequence : List (Option Nat)) :
    Nat → Nat → List (Option Nat) × Nat
  | 0, current_page => ([], current_page)
  | slots + 1, current_page =>
    match sequence.getD current_page none with
    | some p =>
      let r := fill_slots sequence slots (current_page + 1)
      (some p :: r.fst, r.snd)
    | none =>
      let r := fill_slots sequence slots current_page
      (none :: r.fst, r.snd)

/-- The while loop of StreamConverter.__do_reduce: while current_page <
len(sequence), create a blank output sheet, fill its pages_in_sheet
slots, and rotate the sheet by 180 degrees when the two-sided flip is
LONG_EDGE and the 0-based sheet index output_page is odd.  The loop does
not terminate when current_page stops advancing (a None entry pins it),
so the recursion burns explicit fuel; none models non-termination within
the given fuel. -/
def do_reduce_loop (sequence : List (Option Nat)) (pagesInSheet : Nat)
    (flip : TwoSidedFlip) :
    Nat → Nat → Nat → Option (List (List (Option Nat) × Bool))
  | 0, current_page, _ =>
    if current_page < sequence.length then none else some []
  | fuel + 1, current_page, output_page =>
    if current_page < sequence.length then
      let r := fill_slots sequence pagesInSheet current_page
      let rotated := flip == TwoSidedFlip.longEdge && output_page % 2 == 1
      match do_reduce_loop sequence pagesInSheet flip fuel r.snd (output_page + 1) with
      | none => none
      | some sheets => some ((r.fst, rotated) :: sheets)
    else
      some []

/-- StreamConverter.__do_reduce on an already-computed sequence: the
sheet-assembly loop started at current_page = 0, output_page = 0, with
fuel sequence.length (shown sufficient whenever the sequence is free of
None entries and the grid has at least one slot). -/
def do_reduce (sequence : List (Option Nat)) (pagesInSheet : Nat)
    (flip : TwoSidedFlip) : Option (List (List (Option Nat) × Bool)) :=
  do_reduce_loop sequence pagesInSheet flip sequence.length 0 0

/-- Python list.insert(i, x): insert x before position i, clamping i to
the list length (pypdf insert_blank_page defers to this behaviour). -/
def py_insert {α : Type} (l : List α) (i : Nat) (x : α) : List α :=
  l.take i ++ x :: l.drop i

/-- The extraction loop of StreamConverter.linearize, applied to a
booklet document given as its list of sheets (each sheet the list of its
grid-slot contents in row-major order, none = blank region).  The loop
walks every slot of every input sheet; at global slot j it reads the
target position sequence[j] from __get_sequence_for_linearize, and when
that entry is not None it extracts the slot region and inserts it as a
new page at that position of the output document (pypdf
insert_blank_page + merge).  Zip truncates at the slot count, matching
the loop bound page_count * pages_in_sheet. -/
def linearize_extract (copy : Bool) (pagesInSheet : Nat)
    (sheets : List (List (Option Nat))) : List (Option Nat) :=
  (sheets.flatten.zip
      (get_sequence_for_linearize copy pagesInSheet sheets.length)).foldl
    (fun outdoc slot =>
      match slot.snd with
      | some pos => py_insert outdoc pos slot.fst
      | none => outdoc)
    []

/-
General lemmas about the booklet arranger.
-/

/-- Popping from a list that ends in a known element splits exactly
there. -/
theorem splitLast_append_single {α : Type} :
    ∀ (ys : List α) (a : α), splitLast (ys ++ [a]) = some (ys, a) := by
  intro ys a
  induction ys with
  | nil => simp [splitLast]
  | cons y ys ih =>
    cases ys with
    | nil => simp [splitLast]
    | cons z zs =>
      simp only [List.cons_append, splitLast, List.append_eq] at ih ⊢
      rw [ih]

/-- One iteration of the booklet while loop, on a list presented as
first, second, middle, second-to-last, last. -/
theorem booklet_arrange_step (c : Bool) (s : Nat) (b e d a : Option Nat)
    (mid : List (Option Nat)) :
    booklet_arrange c s (b :: e :: (mid ++ [d, a])) =
      (booklet_arrange c s mid).map (fun rest =>
        append_and_copy c s [a, b] ++ (append_and_copy c s [e, d] ++ rest)) := by
  have hsplit1 : splitLast (b :: e :: (mid ++ [d, a])) =
      some (b :: e :: (mid ++ [d]), a) := by
    have h : b :: e :: (mid ++ [d, a]) = (b :: e :: (mid ++ [d])) ++ [a] := by
      simp
    rw [h, splitLast_append_single]
  have hsplit2 : splitLast (mid ++ [d]) = some (mid, d) :=
    splitLast_append_single mid d
  rw [booklet_arrange.eq_def]
  split
  · rename_i heq
    simp at heq
  rename_i x xs heq
  obtain ⟨hx, hxs⟩ := List.cons.inj heq
  subst hx; subst hxs
  split
  · rename_i heq1
    rw [hsplit1] at heq1
    simp at heq1
  · rename_i heq1
    rw [hsplit1] at heq1
    simp at heq1
  · rename_i heq1
    rw [hsplit1] at heq1
    simp at heq1
  · rename_i b1 e1 l3 a1 heq1
    rw [hsplit1] at heq1
    obtain ⟨⟨hb, he, hl3⟩, ha⟩ : (b = b1 ∧ e = e1 ∧ mid ++ [d] = l3) ∧ a = a1 := by
      simpa using heq1
    subst hb; subst he; subst hl3; subst ha
    split
    · rename_i heq2
      rw [hsplit2] at heq2
      simp at heq2
    · rename_i l4 d1 heq2
      rw [hsplit2] at heq2
      obtain ⟨hl4, hd⟩ : mid = l4 ∧ d = d1 := by simpa using heq2
      subst hl4; subst hd
      cases hmid : booklet_arrange c s mid with
      | none => simp [hmid]
      | some rest => simp [hmid]

/-- Every list with at least two elements ends in two known elements. -/
theorem exists_two_last {α : Type} :
    ∀ (l : List α), 2 ≤ l.length → ∃ mid d a, l = mid ++ [d, a] := by
  intro l
  induction l with
  | nil => intro h; simp at h
  | cons x xs ih =>
    intro h
    cases xs with
    | nil => simp at h
    | cons y ys =>
      cases ys with
      | nil => exact ⟨[], x, y, by simp⟩
      | cons z zs =>
        obtain ⟨mid, d, a, he⟩ := ih (by simp)
        exact ⟨x :: mid, d, a, by rw [List.cons_append, ← he]⟩

/-- Length of a constant flatMap over a range. -/
theorem flatMap_const_length {β : Type} (n : Nat) (pages : List β) :
    ((List.range n).flatMap (fun _ => pages)).length = n * pages.length := by
  induction n with
  | zero => simp
  | succ n ih =>
    rw [List.range_succ, List.flatMap_append]
    simp [ih, Nat.succ_mul]

/-- Length of one appended page group. -/
theorem append_and_copy_length (c : Bool) (s : Nat) (pages : List (Option Nat)) :
    (append_and_copy c s pages).length =
      (if c then s / 2 else 1) * pages.length := by
  cases c with
  | false => simp [append_and_copy]
  | true =>
    have h : append_and_copy true s pages =
        (List.range (s / 2)).flatMap (fun _ => pages) := by
      simp [append_and_copy]
    rw [h, flatMap_const_length]
    simp

/-- The booklet while loop never hits an IndexError on a list whose
length is a multiple of four, and its result length is the number of
iterations times the block size. -/
theorem booklet_arrange_some (c : Bool) (s : Nat) :
    ∀ (m : Nat) (l : List (Option Nat)), l.length = 4 * m →
      ∃ r, booklet_arrange c s l = some r ∧
        r.length = (4 * (if c then s / 2 else 1)) * m := by
  intro m
  induction m with
  | zero =>
    intro l hl
    have : l = [] := List.eq_nil_of_length_eq_zero (by omega)
    subst this
    exact ⟨[], by simp [booklet_arrange], by simp⟩
  | succ m ih =>
    intro l hl
    cases l with
    | nil => simp at hl
    | cons x xs =>
      cases xs with
      | nil => simp at hl; omega
      | cons y ys =>
        obtain ⟨mid, d, a, he⟩ := exists_two_last ys (by simp at hl ⊢; omega)
        subst he
        have hmid : mid.length = 4 * m := by simp at hl; omega
        obtain ⟨r, hr, hrlen⟩ := ih mid hmid
        refine ⟨_, by rw [booklet_arrange_step, hr]; rfl, ?_⟩
        cases c with
        | false =>
          simp [append_and_copy_length, hrlen]
          ring
        | true =>
          simp [append_and_copy_length, hrlen]
          ring

/-- Closed form of the booklet while loop with copy_pages disabled, on a
consecutive span of pages: block j of the result is
last-2j, first+2j, first+2j+1, last-1-2j. -/
theorem booklet_arrange_range (s : Nat) :
    ∀ (m k : Nat),
      booklet_arrange false s ((List.range (4 * m)).map (fun i => some (k + i))) =
        some ((List.range m).flatMap (fun j =>
          [some (k + 4 * m - 1 - 2 * j), some (k + 2 * j),
           some (k + 2 * j + 1), some (k + 4 * m - 2 - 2 * j)])) := by
  intro m
  induction m with
  | zero => intro k; simp [booklet_arrange]
  | succ m ih =>
    intro k
    have hdec : List.range (4 * (m + 1)) =
        0 :: 1 :: ((List.range (4 * m)).map (fun i => 2 + i) ++
          [4 * m + 2, 4 * m + 3]) := by
      have h1 : 4 * (m + 1) = 2 + (4 * m + 2) := by ring
      rw [h1, List.range_add]
      have h2 : List.range (4 * m + 2) = List.range (4 * m) ++ [4 * m, 4 * m + 1] := by
        have : 4 * m + 2 = (4 * m + 1) + 1 := by ring
        rw [this, List.range_succ, List.range_succ]
        simp
      rw [h2]
      simp [List.range_succ]
      omega
    rw [hdec]
    simp only [List.map_cons, List.map_append, List.map_map, List.map_nil]
    have hmid : (List.range (4 * m)).map ((fun i => some (k + i)) ∘ (fun i => 2 + i)) =
        (List.range (4 * m)).map (fun i => some (k + 2 + i)) := by
      apply List.map_congr_left
      intro i _
      simp
      omega
    rw [hmid, booklet_arrange_step, ih (k + 2)]
    rw [List.range_succ_eq_map, List.flatMap_cons, List.flatMap_map]
    simp only [Option.map_some', append_and_copy]
    simp only [Bool.false_eq_true, if_false]
    have hfun : (fun j => [some (k + 4 * (m + 1) - 1 - 2 * Nat.succ j),
          some (k + 2 * Nat.succ j), some (k + 2 * Nat.succ j + 1),
          some (k + 4 * (m + 1) - 2 - 2 * Nat.succ j)]) =
        (fun j => [some (k + 2 + 4 * m - 1 - 2 * j), some (k + 2 + 2 * j),
          some (k + 2 + 2 * j + 1), some (k + 2 + 4 * m - 2 - 2 * j)]) := by
      funext j
      simp only [List.cons.injEq, Option.some.injEq, and_true]
      refine ⟨by omega, by omega, by omega, by omega⟩
    rw [hfun]
    simp only [List.cons_append, List.nil_append, List.cons.injEq,
      Option.some.injEq, and_true, true_and]
    omega

/-- Closed form of the booklet sequence for a page count that is a
multiple of four and copy_pages disabled. -/
theorem booklet_closed_form (s N : Nat) (h : N % 4 = 0) :
    get_sequence_for_booklet false s N =
      some ((List.range (N / 4)).flatMap (fun j =>
        [some (N - 1 - 2 * j), some (2 * j), some (2 * j + 1),
         some (N - 2 - 2 * j)])) := by
  have hN : 4 * (N / 4) = N := by omega
  have key := booklet_arrange_range s (N / 4) 0
  rw [hN] at key
  have hfn : (List.range N).map (fun i => some (0 + i)) =
      (List.range N).map (fun p => some p) := by
    apply List.map_congr_left
    intro i _
    simp
  rw [hfn] at key
  show booklet_arrange false s
      ((List.range N).map (fun p => some p) ++
        (List.range (if N % 4 = 0 then 0 else 4 - N % 4)).map (fun _ => none)) = _
  rw [if_pos h]
  simp only [List.range_zero, List.map_nil, List.append_nil]
  rw [key]
  congr 2
  funext j
  simp

/-- A constant map over a range is a replicate. -/
theorem map_const_range {β : Type} (n : Nat) (x : β) :
    (List.range n).map (fun _ => x) = List.replicate n x := by
  induction n with
  | zero => simp
  | succ n ih =>
    rw [List.range_succ, List.map_append, ih]
    simp [List.replicate_succ']

/-- The reduce sequence with copy_pages replicates every page index
pages_in_sheet times. -/
theorem reduce_copy_closed (s P : Nat) :
    get_sequence_for_reduce true s P =
      (List.range P).flatMap (fun p => List.replicate s (some p)) := by
  show (List.range P).flatMap (fun page => (List.range s).map (fun _ => some page)) = _
  congr 1
  funext page
  exact map_const_range s (some page)

/-- Length of a flatMap of constant-size replicates. -/
theorem flatMap_replicate_length {β : Type} (s : Nat) (f : Nat → β) :
    ∀ P, ((List.range P).flatMap (fun p => List.replicate s (f p))).length = P * s := by
  intro P
  induction P with
  | zero => simp
  | succ P ih =>
    rw [List.range_succ, List.flatMap_append]
    simp [ih, Nat.succ_mul]

/-- The reduce sequence without copy_pages is the identity order padded
at the tail with blanks up to a multiple of pages_in_sheet. -/
theorem reduce_nocopy_closed (s P : Nat) (hs : 1 ≤ s) :
    get_sequence_for_reduce false s P =
      (List.range P).map (fun p => some p) ++
        List.replicate ((s - P % s) % s) none := by
  show (if ((List.range P).map (fun p => some p)).length % s ≠ 0 then _ else _) = _
  by_cases h : P % s = 0
  · rw [if_neg (by simp [h])]
    have : (s - P % s) % s = 0 := by
      rw [h]
      simp
    rw [this]
    simp
  · rw [if_pos (by simp [h])]
    rw [map_const_range]
    have hlt : P % s < s := Nat.mod_lt P (by omega)
    have : (s - P % s) % s = s - P % s := Nat.mod_eq_of_lt (by omega)
    rw [this]
    congr 1
    simp

/-- The length of the reduce sequence is always a multiple of
pages_in_sheet. -/
theorem reduce_length_mod (c : Bool) (s P : Nat) (hs : 1 ≤ s) :
    (get_sequence_for_reduce c s P).length % s = 0 := by
  cases c with
  | true =>
    rw [reduce_copy_closed, flatMap_replicate_length]
    simp [Nat.mul_mod_left]
  | false =>
    rw [reduce_nocopy_closed s P hs]
    simp only [List.length_append, List.length_map, List.length_replicate,
      List.length_range]
    by_cases h : P % s = 0
    · have h2 : (s - P % s) % s = 0 := by
        rw [h]
        simp
      rw [h2, Nat.add_zero]
      exact h
    · have hlt : P % s < s := Nat.mod_lt P (by omega)
      have h2 : (s - P % s) % s = s - P % s := Nat.mod_eq_of_lt (by omega)
      rw [h2]
      have hdm := Nat.div_add_mod P s
      have h3 : P + (s - P % s) = s * (P / s + 1) := by
        rw [Nat.mul_add]
        omega
      rw [h3]
      exact Nat.mul_mod_right s (P / s + 1)

/-- The booklet sequence generator succeeds on every page count, every
grid and either copy_pages setting, and its result length is a multiple
of four. -/
theorem booklet_total (c : Bool) (s N : Nat) :
    ∃ l, get_sequence_for_booklet c s N = some l ∧ l.length % 4 = 0 := by
  have hlen : ((List.range N).map (fun p => some p) ++
      (List.range (if N % 4 = 0 then 0 else 4 - N % 4)).map
        (fun _ => (none : Option Nat))).length = 4 * ((N + 3) / 4) := by
    simp only [List.length_append, List.length_map, List.length_range]
    by_cases h : N % 4 = 0
    · rw [if_pos h]
      omega
    · rw [if_neg h]
      omega
  obtain ⟨r, hr, hrlen⟩ := booklet_arrange_some c s ((N + 3) / 4) _ hlen
  refine ⟨r, hr, ?_⟩
  rw [hrlen, Nat.mul_assoc]
  exact Nat.mul_mod_right 4 _

/-- In the sheet-assembly loop, the rotation flag of the k-th produced
sheet is on exactly when the flip is LONG_EDGE and the sheet counter
output_page + k is odd. -/
theorem do_reduce_loop_flags (seq : List (Option Nat)) (s : Nat)
    (flip : TwoSidedFlip) :
    ∀ (fuel cp op : Nat) (sheets : List (List (Option Nat) × Bool)),
      do_reduce_loop seq s flip fuel cp op = some sheets →
      ∀ (k : Nat) (hk : k < sheets.length),
        (sheets.get ⟨k, hk⟩).snd =
          (flip == TwoSidedFlip.longEdge && (op + k) % 2 == 1) := by
  intro fuel
  induction fuel with
  | zero =>
    intro cp op sheets h k hk
    simp only [do_reduce_loop] at h
    split at h
    · simp at h
    · have : ([] : List (List (Option Nat) × Bool)) = sheets := by simpa using h
      subst this
      simp at hk
  | succ fuel ih =>
    intro cp op sheets h k hk
    simp only [do_reduce_loop] at h
    split at h
    · cases hrec : do_reduce_loop seq s flip fuel (fill_slots seq s cp).snd (op + 1) with
      | none =>
        rw [hrec] at h
        simp at h
      | some sheets' =>
        rw [hrec] at h
        simp only [Option.some.injEq] at h
        subst h
        cases k with
        | zero =>
          simp
        | succ k =>
          have hk' : k < sheets'.length := by
            simpa using hk
          have := ih (fill_slots seq s cp).snd (op + 1) sheets' hrec k hk'
          have harith : op + 1 + k = op + (k + 1) := by omega
          rw [harith] at this
          simpa using this
    · have : ([] : List (List (Option Nat) × Bool)) = sheets := by simpa using h
      subst this
      simp at hk

/-- On a sequence free of None entries, filling n slots starting at an
in-range position consumes exactly the next n entries. -/
theorem fill_slots_window (seq : List (Option Nat)) (hnf : ∀ x ∈ seq, x ≠ none) :
    ∀ (n cp : Nat), cp + n ≤ seq.length →
      fill_slots seq n cp = ((seq.drop cp).take n, cp + n) := by
  intro n
  induction n with
  | zero =>
    intro cp h
    simp [fill_slots]
  | succ n ih =>
    intro cp h
    have hcp : cp < seq.length := by omega
    have hgd : seq.getD cp none = seq.get ⟨cp, hcp⟩ := by
      simp [List.getD_eq_getElem?_getD, List.getElem?_eq_getElem hcp]
    have hmem : seq.get ⟨cp, hcp⟩ ∈ seq := seq.get_mem cp hcp
    obtain ⟨v, hv⟩ : ∃ v, seq.get ⟨cp, hcp⟩ = some v := by
      cases hx : seq.get ⟨cp, hcp⟩ with
      | none => exact absurd (hx ▸ hmem) (by simpa using hnf none)
      | some v => exact ⟨v, rfl⟩
    have hv' : seq.getD cp none = some v := by rw [hgd, hv]
    rw [fill_slots, hv']
    simp only []
    rw [ih (cp + 1) (by omega)]
    have hdrop : seq.drop cp = seq.get ⟨cp, hcp⟩ :: seq.drop (cp + 1) := by
      rw [List.drop_eq_getElem_cons hcp]
      simp
    rw [hdrop, hv, List.take_succ_cons]
    simp
    omega

/-- The sheet-assembly loop on a None-free sequence whose remaining part
is exactly m sheets: it produces those m sheets as consecutive chunks,
with the LONG_EDGE rotation flag on odd sheet counters. -/
theorem do_reduce_loop_chunks (seq : List (Option Nat)) (s : Nat)
    (flip : TwoSidedFlip) (hnf : ∀ x ∈ seq, x ≠ none) (hs : 1 ≤ s) :
    ∀ (m fuel cp op : Nat), cp + m * s = seq.length → m ≤ fuel →
      do_reduce_loop seq s flip fuel cp op =
        some ((List.range m).map (fun i =>
          ((seq.drop (cp + i * s)).take s,
           flip == TwoSidedFlip.longEdge && (op + i) % 2 == 1))) := by
  intro m
  induction m with
  | zero =>
    intro fuel cp op h hf
    have hcp : ¬ (cp < seq.length) := by omega
    cases fuel with
    | zero => simp [do_reduce_loop, hcp]
    | succ f => simp [do_reduce_loop, hcp]
  | succ m ih =>
    intro fuel cp op h hf
    have hpos : 1 ≤ (m + 1) * s := Nat.mul_pos (by omega) hs
    have hms : (m + 1) * s = m * s + s := by ring
    have hcp : cp < seq.length := by omega
    obtain ⟨f, rfl⟩ : ∃ f, fuel = f + 1 := ⟨fuel - 1, by omega⟩
    have hfill : fill_slots seq s cp = ((seq.drop cp).take s, cp + s) :=
      fill_slots_window seq hnf s cp (by omega)
    rw [do_reduce_loop, if_pos hcp]
    simp only [hfill]
    rw [ih f (cp + s) (op + 1) (by omega) (by omega)]
    rw [List.range_succ_eq_map, List.map_cons, List.map_map]
    simp only [Option.some.injEq, List.cons.injEq]
    constructor
    · simp
    · apply List.map_congr_left
      intro i _
      have harg : cp + s + i * s = cp + (i + 1) * s := by ring
      have harg2 : op + 1 + i = op + (i + 1) := by omega
      simp only [Function.comp_apply, harg, harg2]

/-- __do_reduce on a None-free sequence whose length is an exact number
of sheets: the sheets are the consecutive chunks of the sequence. -/
theorem do_reduce_chunks (seq : List (Option Nat)) (s : Nat) (flip : TwoSidedFlip)
    (hnf : ∀ x ∈ seq, x ≠ none) (hs : 1 ≤ s) (hdvd : s ∣ seq.length) :
    do_reduce seq s flip =
      some ((List.range (seq.length / s)).map (fun i =>
        ((seq.drop (i * s)).take s,
         flip == TwoSidedFlip.longEdge && i % 2 == 1))) := by
  have hc := Nat.div_mul_cancel hdvd
  have hm : 0 + (seq.length / s) * s = seq.length := by omega
  have hfuel : seq.length / s ≤ seq.length := Nat.div_le_self _ _
  have key := do_reduce_loop_chunks seq s flip hnf hs (seq.length / s)
    seq.length 0 0 hm hfuel
  rw [do_reduce, key]
  congr 1
  apply List.map_congr_left
  intro i _
  simp

/-- Flattening consecutive chunks of size s recovers the sequence. -/
theorem chunks_flatten (seq : List (Option Nat)) (s : Nat) :
    ∀ (m cp : Nat), cp + m * s = seq.length →
      ((List.range m).map (fun i => (seq.drop (cp + i * s)).take s)).flatten =
        seq.drop cp := by
  intro m
  induction m with
  | zero =>
    intro cp h
    have : cp = seq.length := by omega
    subst this
    simp [List.drop_length]
  | succ m ih =>
    intro cp h
    rw [List.range_succ_eq_map, List.map_cons, List.map_map, List.flatten_cons]
    have h0 : cp + 0 * s = cp := by ring
    rw [h0]
    have htail : (List.range m).map
        ((fun i => (seq.drop (cp + i * s)).take s) ∘ Nat.succ) =
        (List.range m).map (fun i => (seq.drop ((cp + s) + i * s)).take s) := by
      apply List.map_congr_left
      intro i _
      have : cp + (i + 1) * s = cp + s + i * s := by ring
      simp [this]
    have hms : (m + 1) * s = m * s + s := by ring
    rw [htail, ih (cp + s) (by omega)]
    have hdd : seq.drop (cp + s) = (seq.drop cp).drop s := by
      rw [List.drop_drop]
    rw [hdd, List.take_append_drop]

/-- The linearize sequence without copy_pages, in closed form: block j is
2j, 2j, 2j+1, 2j+2. -/
theorem linearize_seq_nocopy (s P : Nat) :
    get_sequence_for_linearize false s P =
      (List.range ((P * s + 3) / 4)).flatMap (fun j =>
        [some (2 * j), some (2 * j), some (2 * j + 1), some (2 * j + 2)]) := by
  show (List.range ((P * s + 3) / 4)).flatMap (fun j =>
      append_and_remove_copies false s
          [some ((4 * j) / 2), some ((4 * j) / 2)] ++
        append_and_remove_copies false s
          [some ((4 * j) / 2 + 1), some ((4 * j) / 2 + 2)]) = _
  congr 1
  funext j
  have h2 : (4 * j) / 2 = 2 * j := by omega
  simp [append_and_remove_copies, h2]

/-- Two flatMaps with blockwise equal lengths have equal total length. -/
theorem flatMap_length_congr {α β : Type} (f : Nat → List α) (g : Nat → List β)
    (hfg : ∀ j, (f j).length = (g j).length) :
    ∀ m, ((List.range m).flatMap f).length = ((List.range m).flatMap g).length := by
  intro m
  induction m with
  | zero => simp
  | succ m ih =>
    rw [List.range_succ, List.flatMap_append, List.flatMap_append]
    simp [ih, hfg m]

/-- Zipping two flatMaps with blockwise equal lengths zips block by
block. -/
theorem zip_flatMap_blocks {α β : Type} (f : Nat → List α) (g : Nat → List β)
    (hfg : ∀ j, (f j).length = (g j).length) :
    ∀ m, ((List.range m).flatMap f).zip ((List.range m).flatMap g) =
      (List.range m).flatMap (fun j => (f j).zip (g j)) := by
  intro m
  induction m with
  | zero => simp
  | succ m ih =>
    rw [List.range_succ, List.flatMap_append, List.flatMap_append,
      List.flatMap_append]
    rw [List.zip_append (flatMap_length_congr f g hfg m)]
    simp [ih]

/-- Python insert at the length of a known prefix. -/
theorem py_insert_at_len {α : Type} (A B : List α) (x : α) (pos : Nat)
    (hpos : pos = A.length) : py_insert (A ++ B) pos x = A ++ x :: B := by
  subst hpos
  show (A ++ B).take A.length ++ x :: (A ++ B).drop A.length = _
  rw [List.take_left, List.drop_left]

/-- Length of a flatMap whose blocks all have the same length. -/
theorem flatMap_fixed_length {α : Type} (f : Nat → List α) (c : Nat)
    (hf : ∀ j, (f j).length = c) :
    ∀ m, ((List.range m).flatMap f).length = m * c := by
  intro m
  induction m with
  | zero => simp
  | succ m ih =>
    rw [List.range_succ, List.flatMap_append]
    simp [ih, hf m, Nat.succ_mul]

/-- One linearize block of four insertions into a document that splits
as a prefix of length 2k and a suffix: the block inserts at positions
2k, 2k, 2k+1, 2k+2. -/
theorem four_inserts (A B : List (Option Nat)) (k : Nat) (hA : A.length = 2 * k)
    (c1 c2 c3 c4 : Option Nat) :
    List.foldl
      (fun outdoc slot =>
        match slot.snd with
        | some pos => py_insert outdoc pos slot.fst
        | none => outdoc)
      (A ++ B)
      [(c1, some (2 * k)), (c2, some (2 * k)), (c3, some (2 * k + 1)),
       (c4, some (2 * k + 2))] =
      A ++ c2 :: c3 :: c4 :: c1 :: B := by
  show py_insert (py_insert (py_insert (py_insert (A ++ B) (2 * k) c1)
      (2 * k) c2) (2 * k + 1) c3) (2 * k + 2) c4 = A ++ c2 :: c3 :: c4 :: c1 :: B
  rw [py_insert_at_len A B c1 (2 * k) hA.symm]
  rw [py_insert_at_len A (c1 :: B) c2 (2 * k) hA.symm]
  have r1 : A ++ c2 :: c1 :: B = (A ++ [c2]) ++ c1 :: B := by simp
  rw [r1, py_insert_at_len (A ++ [c2]) (c1 :: B) c3 (2 * k + 1) (by simp [hA])]
  have r2 : (A ++ [c2]) ++ c3 :: c1 :: B = (A ++ [c2, c3]) ++ c1 :: B := by simp
  rw [r2, py_insert_at_len (A ++ [c2, c3]) (c1 :: B) c4 (2 * k + 2)
    (by simp [hA])]
  simp

/-- A range of n+2 elements, split at its first two elements. -/
theorem range_add_two (n : Nat) :
    List.range (n + 2) = 0 :: 1 :: (List.range n).map (fun i => 2 + i) := by
  have h1 : n + 2 = 2 + n := by omega
  rw [h1, List.range_add]
  have h2 : List.range 2 = [0, 1] := by decide
  rw [h2]
  simp

/-- Inserting one linearize block into the split document advances the
split invariant by one block. -/
theorem D_step (N k : Nat) (h : 4 * (k + 1) ≤ N) :
    (List.range (2 * k)).map (fun i => (some i : Option Nat)) ++
      some (2 * k) :: some (2 * k + 1) :: some (N - 2 - 2 * k) ::
        some (N - 1 - 2 * k) ::
          (List.range (2 * k)).map (fun i => some (N - 2 * k + i)) =
    (List.range (2 * (k + 1))).map (fun i => some i) ++
      (List.range (2 * (k + 1))).map (fun i => some (N - 2 * (k + 1) + i)) := by
  have e1 : 2 * (k + 1) = (2 * k) + 2 := by ring
  have hfst : (List.range (2 * (k + 1))).map (fun i => (some i : Option Nat)) =
      (List.range (2 * k)).map (fun i => some i) ++
        [some (2 * k), some (2 * k + 1)] := by
    rw [e1]
    have h3 : (2 * k) + 2 = ((2 * k) + 1) + 1 := by ring
    rw [h3, List.range_succ, List.range_succ]
    simp
  have hsnd : (List.range (2 * (k + 1))).map
        (fun i => (some (N - 2 * (k + 1) + i) : Option Nat)) =
      some (N - 2 - 2 * k) :: some (N - 1 - 2 * k) ::
        (List.range (2 * k)).map (fun i => some (N - 2 * k + i)) := by
    rw [e1, range_add_two]
    simp only [List.map_cons, List.map_map, List.cons.injEq, Option.some.injEq]
    refine ⟨by omega, by omega, ?_⟩
    apply List.map_congr_left
    intro i _
    simp only [Function.comp_apply, Option.some.injEq]
    omega
  rw [hfst, hsnd]
  simp

/-- Folding m consecutive linearize blocks over the split document moves
the split point forward by m blocks. -/
theorem extract_fold_blocks (N : Nat) :
    ∀ (m k : Nat), 4 * (k + m) ≤ N →
      List.foldl
        (fun outdoc slot =>
          match slot.snd with
          | some pos => py_insert outdoc pos slot.fst
          | none => outdoc)
        ((List.range (2 * k)).map (fun i => some i) ++
          (List.range (2 * k)).map (fun i => some (N - 2 * k + i)))
        ((List.range m).flatMap (fun j =>
          [(some (N - 1 - 2 * (k + j)), some (2 * (k + j))),
           (some (2 * (k + j)), some (2 * (k + j))),
           (some (2 * (k + j) + 1), some (2 * (k + j) + 1)),
           (some (N - 2 - 2 * (k + j)), some (2 * (k + j) + 2))])) =
      (List.range (2 * (k + m))).map (fun i => some i) ++
        (List.range (2 * (k + m))).map (fun i => some (N - 2 * (k + m) + i)) := by
  intro m
  induction m with
  | zero =>
    intro k h
    simp
  | succ m ih =>
    intro k h
    rw [List.range_succ_eq_map, List.flatMap_cons]
    simp only [List.flatMap_map, Nat.succ_eq_add_one]
    rw [List.foldl_append]
    have hk0 : k + 0 = k := by omega
    rw [hk0]
    rw [four_inserts _ _ k (by simp) (some (N - 1 - 2 * k)) (some (2 * k))
      (some (2 * k + 1)) (some (N - 2 - 2 * k))]
    rw [D_step N k (by omega)]
    have hblocks : (fun j =>
        [(some (N - 1 - 2 * (k + (j + 1))), some (2 * (k + (j + 1)))),
         (some (2 * (k + (j + 1))), some (2 * (k + (j + 1)))),
         (some (2 * (k + (j + 1)) + 1), some (2 * (k + (j + 1)) + 1)),
         (some (N - 2 - 2 * (k + (j + 1))), some (2 * (k + (j + 1)) + 2))]) =
        (fun j =>
        [(some (N - 1 - 2 * ((k + 1) + j)), some (2 * ((k + 1) + j))),
         (some (2 * ((k + 1) + j)), some (2 * ((k + 1) + j))),
         (some (2 * ((k + 1) + j) + 1), some (2 * ((k + 1) + j) + 1)),
         (some (N - 2 - 2 * ((k + 1) + j)), some (2 * ((k + 1) + j) + 2))]) := by
      funext j
      have harg : k + (j + 1) = k + 1 + j := by omega
      rw [harg]
    rw [hblocks]
    have hidx : k + (m + 1) = (k + 1) + m := by omega
    rw [hidx]
    exact ih (k + 1) (by omega)

/-- Consecutive chunks starting at zero flatten back to the sequence. -/
theorem chunks_flatten_zero (seq : List (Option Nat)) (s m : Nat)
    (h : m * s = seq.length) :
    ((List.range m).map (fun i => (seq.drop (i * s)).take s)).flatten = seq := by
  have key := chunks_flatten seq s m 0 (by omega)
  simp only [Nat.zero_add, List.drop_zero] at key
  exact key

/-- Folding all linearize blocks starting from the empty document. -/
theorem extract_fold_blocks_zero (N m : Nat) (h : 4 * m ≤ N) :
    List.foldl
      (fun outdoc slot =>
        match slot.snd with
        | some pos => py_insert outdoc pos slot.fst
        | none => outdoc)
      []
      ((List.range m).flatMap (fun j =>
        [(some (N - 1 - 2 * j), some (2 * j)),
         (some (2 * j), some (2 * j)),
         (some (2 * j + 1), some (2 * j + 1)),
         (some (N - 2 - 2 * j), some (2 * j + 2))])) =
    (List.range (2 * m)).map (fun i => some i) ++
      (List.range (2 * m)).map (fun i => some (N - 2 * m + i)) := by
  have key := extract_fold_blocks N m 0 (by omega)
  simp only [Nat.zero_add, Nat.mul_zero, List.range_zero, List.map_nil,
    List.nil_append] at key
  exact key

/-- The split document after all N/4 blocks is the identity order. -/
theorem D_final (N : Nat) (h4 : N % 4 = 0) :
    (List.range (2 * (N / 4))).map (fun i => (some i : Option Nat)) ++
      (List.range (2 * (N / 4))).map (fun i => some (N - 2 * (N / 4) + i)) =
    (List.range N).map (fun p => some p) := by
  have ht : 2 * (N / 4) + 2 * (N / 4) = N := by omega
  have hsub : N - 2 * (N / 4) = 2 * (N / 4) := by omega
  rw [hsub]
  conv_rhs => rw [← ht, List.range_add, List.map_append, List.map_map]
  simp [Function.comp]

/-- Linearize-extraction inverts sheet assembly on a booklet sequence in
closed form, whenever the grid size divides the page count. -/
theorem roundtrip_core (s N : Nat) (hs : 1 ≤ s) (h4 : N % 4 = 0)
    (hdvd : s ∣ N) (bl : List (Option Nat))
    (hbl : bl = (List.range (N / 4)).flatMap (fun j =>
      [some (N - 1 - 2 * j), some (2 * j), some (2 * j + 1),
       some (N - 2 - 2 * j)])) :
    ∃ sheets, do_reduce bl s TwoSidedFlip.shortEdge = some sheets ∧
      linearize_extract false s (sheets.map Prod.fst) =
        (List.range N).map (fun p => some p) := by
  have hlen : bl.length = N := by
    rw [hbl, flatMap_fixed_length (fun j =>
      [some (N - 1 - 2 * j), some (2 * j), some (2 * j + 1),
       some (N - 2 - 2 * j)]) 4 (fun j => rfl)]
    omega
  have hnf : ∀ x ∈ bl, x ≠ none := by
    rw [hbl]
    intro x hx
    rw [List.mem_flatMap] at hx
    obtain ⟨j, _, hxm⟩ := hx
    simp at hxm
    rcases hxm with rfl | rfl | rfl | rfl <;> simp
  have hdo := do_reduce_chunks bl s TwoSidedFlip.shortEdge hnf hs
    (by rw [hlen]; exact hdvd)
  rw [hlen] at hdo
  refine ⟨_, hdo, ?_⟩
  rw [List.map_map]
  have hcomp : (Prod.fst ∘ fun i =>
      ((bl.drop (i * s)).take s,
       TwoSidedFlip.shortEdge == TwoSidedFlip.longEdge && i % 2 == 1)) =
      (fun i => (bl.drop (i * s)).take s) := by
    funext i
    rfl
  rw [hcomp]
  show ((((List.range (N / s)).map (fun i => (bl.drop (i * s)).take s)).flatten).zip
      (get_sequence_for_linearize false s
        ((List.range (N / s)).map (fun i => (bl.drop (i * s)).take s)).length)).foldl
    (fun outdoc slot =>
      match slot.snd with
      | some pos => py_insert outdoc pos slot.fst
      | none => outdoc)
    [] = _
  have hflat := chunks_flatten_zero bl s (N / s)
    (by rw [Nat.div_mul_cancel hdvd, hlen])
  rw [hflat]
  have hcnt : ((List.range (N / s)).map
      (fun i => (bl.drop (i * s)).take s)).length = N / s := by
    simp
  rw [hcnt, linearize_seq_nocopy]
  have hP : (N / s * s + 3) / 4 = N / 4 := by
    rw [Nat.div_mul_cancel hdvd]
    omega
  rw [hP, hbl]
  rw [zip_flatMap_blocks
    (fun j => [some (N - 1 - 2 * j), some (2 * j), some (2 * j + 1),
      some (N - 2 - 2 * j)])
    (fun j => [some (2 * j), some (2 * j), some (2 * j + 1), some (2 * j + 2)])
    (fun j => rfl) (N / 4)]
  have hzip : (fun j =>
      ([some (N - 1 - 2 * j), some (2 * j), some (2 * j + 1),
        some (N - 2 - 2 * j)].zip
       [some (2 * j), some (2 * j), some (2 * j + 1), some (2 * j + 2)])) =
      (fun j =>
      [(some (N - 1 - 2 * j), some (2 * j)),
       (some (2 * j), some (2 * j)),
       (some (2 * j + 1), some (2 * j + 1)),
       (some (N - 2 - 2 * j), some (2 * j + 2))]) := by
    funext j
    rfl
  rw [hzip]
  rw [extract_fold_blocks_zero N (N / 4) (by omega)]
  exact D_final N h4

/-
Claim theorems.
-/

/-- C1: For every page count N that is a multiple of 4, with
copy_pages=false, the booklet sequence generator returns exactly the
saddle-stitch order obtained by repeatedly removing (last, first) then
(new-first, new-last) from the list 0..N-1: block j of the result is
N-1-2j, 2j, 2j+1, N-2-2j (0-based), so sheet 1 holds pages N, 1, 2, N-1
in 1-based numbering, sheet 2 holds N-2, 3, 4, N-3, and so on until the
list is exhausted. -/
theorem claim_booklet_saddle_stitch (pagesInSheet N : Nat) (h : N % 4 = 0) :
    get_sequence_for_booklet false pagesInSheet N =
      some ((List.range (N / 4)).flatMap (fun j =>
        [some (N - 1 - 2 * j), some (2 * j), some (2 * j + 1),
         some (N - 2 - 2 * j)])) :=
  booklet_closed_form pagesInSheet N h

/-- Witness for C1 at layout 2x1 and N = 8: the sequence is
7, 0, 1, 6, 5, 2, 3, 4. -/
theorem claim_booklet_saddle_stitch_witness :
    8 % 4 = 0 ∧
      get_sequence_for_booklet false 2 8 =
        some ((List.range (8 / 4)).flatMap (fun j =>
          [some (8 - 1 - 2 * j), some (2 * j), some (2 * j + 1),
           some (8 - 2 - 2 * j)])) ∧
      get_sequence_for_booklet false 2 8 =
        some [some 7, some 0, some 1, some 6, some 5, some 2, some 3, some 4] :=
  ⟨rfl, claim_booklet_saddle_stitch 2 8 rfl,
   (claim_booklet_saddle_stitch 2 8 rfl).trans (by decide)⟩

/-- C2 counterexample: with layout 3x1 (a valid layout) and a 4-page
document, linearize applied to the bookletize output does NOT reproduce
the original order: the partially blank last sheet is extracted into two
blank pages interleaved into the middle of the document. -/
theorem claim_roundtrip_counterexample :
    get_sequence_for_booklet false (3 * 1) 4 =
        some [some 3, some 0, some 1, some 2] ∧
      do_reduce [some 3, some 0, some 1, some 2] (3 * 1)
          TwoSidedFlip.shortEdge =
        some [([some 3, some 0, some 1], false), ([some 2, none, none], false)] ∧
      linearize_extract false (3 * 1)
          [[some 3, some 0, some 1], [some 2, none, none]] =
        [some 0, some 1, none, none, some 2, some 3] ∧
      ([some 0, some 1, none, none, some 2, some 3] : List (Option Nat)) ≠
        (List.range 4).map (fun p => some p) :=
  ⟨(booklet_closed_form (3 * 1) 4 rfl).trans (by decide), by decide, by decide,
   by decide⟩

/-- C2 (amended): for every document of N pages with N a multiple of 4,
copy_pages=false, and every layout whose slot count divides N, applying
the linearize extraction to the sheets produced by bookletize
reproduces the original page order 0..N-1. -/
theorem claim_bookletize_linearize_roundtrip (W H N : Nat) (hW : 1 ≤ W)
    (hH : 1 ≤ H) (h4 : N % 4 = 0) (hdvd : (W * H) ∣ N) :
    ∃ seq sheets,
      get_sequence_for_booklet false (W * H) N = some seq ∧
      do_reduce seq (W * H) TwoSidedFlip.shortEdge = some sheets ∧
      linearize_extract false (W * H) (sheets.map Prod.fst) =
        (List.range N).map (fun p => some p) := by
  have hs : 1 ≤ W * H := Nat.mul_pos hW hH
  obtain ⟨sheets, h1, h2⟩ := roundtrip_core (W * H) N hs h4 hdvd _ rfl
  exact ⟨_, sheets, booklet_closed_form (W * H) N h4, h1, h2⟩

/-- Witness for the amended C2 at layout 2x1 and N = 4. -/
theorem claim_bookletize_linearize_roundtrip_witness :
    (1 ≤ 2 ∧ 1 ≤ 1 ∧ 4 % 4 = 0 ∧ (2 * 1) ∣ 4) ∧
      (∃ seq sheets,
        get_sequence_for_booklet false (2 * 1) 4 = some seq ∧
        do_reduce seq (2 * 1) TwoSidedFlip.shortEdge = some sheets ∧
        linearize_extract false (2 * 1) (sheets.map Prod.fst) =
          (List.range 4).map (fun p => some p)) :=
  ⟨⟨by decide, by decide, by decide, by decide⟩,
   claim_bookletize_linearize_roundtrip 2 1 4 (by decide) (by decide)
     (by decide) (by decide)⟩

/-- C3 counterexample: with the valid layout 3x1 and a 4-page document,
the booklet sequence has length 4, which is not a multiple of
slotsPerSheet = 3. -/
theorem claim_length_multiple_counterexample :
    (1 ≤ 3 ∧ 1 ≤ 1) ∧
      get_sequence_for_booklet false (3 * 1) 4 =
        some [some 3, some 0, some 1, some 2] ∧
      ([some 3, some 0, some 1, some 2] : List (Option Nat)).length % (3 * 1) ≠ 0 :=
  ⟨⟨by decide, by decide⟩,
   (booklet_closed_form (3 * 1) 4 rfl).trans (by decide), by decide⟩

/-- C3 (amended): for every valid layout and every page count, the
reduce sequence length is an exact multiple of slotsPerSheet, and the
booklet sequence length is an exact multiple of 4 (not of slotsPerSheet
in general). -/
theorem claim_sequence_length_multiples (W H N : Nat) (c : Bool)
    (hW : 1 ≤ W) (hH : 1 ≤ H) :
    (get_sequence_for_reduce c (W * H) N).length % (W * H) = 0 ∧
      ∃ l, get_sequence_for_booklet c (W * H) N = some l ∧ l.length % 4 = 0 :=
  ⟨reduce_length_mod c (W * H) N (Nat.mul_pos hW hH), booklet_total c (W * H) N⟩

/-- Witness for the amended C3 at layout 2x2, 5 pages, copy_pages
disabled. -/
theorem claim_sequence_length_multiples_witness :
    (1 ≤ 2 ∧ 1 ≤ 2) ∧
      ((get_sequence_for_reduce false (2 * 2) 5).length % (2 * 2) = 0 ∧
        ∃ l, get_sequence_for_booklet false (2 * 2) 5 = some l ∧
          l.length % 4 = 0) :=
  ⟨⟨by decide, by decide⟩,
   claim_sequence_length_multiples 2 2 5 false (by decide) (by decide)⟩

/-- C4: The sequence generators never fail on any page count: the
booklet generator always returns a sequence (no IndexError), zero input
pages yield an empty sequence for booklet and reduce, and a 5-page
document bookletized with layout 2x2 and copy_pages=false yields a slot
sequence of length 8 = 2 sheets of 4 slots containing exactly 3 blank
entries (the input page list is padded at its tail with blanks before
rearrangement). -/
theorem claim_sequence_generators_never_fail :
    (∀ (c : Bool) (s N : Nat), ∃ l, get_sequence_for_booklet c s N = some l) ∧
      (∀ (c : Bool) (s : Nat), get_sequence_for_booklet c s 0 = some []) ∧
      (∀ (c : Bool) (s : Nat), get_sequence_for_reduce c s 0 = []) ∧
      get_sequence_for_booklet false (2 * 2) 5 =
        some [none, some 0, some 1, none, none, some 2, some 3, some 4] ∧
      ([none, some 0, some 1, none, none, some 2, some 3, some 4] :
        List (Option Nat)).length = 2 * (2 * 2) ∧
      ([none, some 0, some 1, none, none, some 2, some 3, some 4] :
        List (Option Nat)).countP (fun x => x == none) = 3 := by
  refine ⟨fun c s N => ?_, fun c s => ?_, fun c s => ?_, ?_, by decide, by decide⟩
  · obtain ⟨l, h1, _⟩ := booklet_total c s N
    exact ⟨l, h1⟩
  · show booklet_arrange c s _ = some []
    simp [booklet_arrange]
  · cases c with
    | false => simp [get_sequence_for_reduce]
    | true => simp [get_sequence_for_reduce]
  · show booklet_arrange false (2 * 2)
        [some 0, some 1, some 2, some 3, some 4, none, none, none] = _
    simp [booklet_arrange, splitLast, append_and_copy]

/-- C5: For every document of N pages and grid W x H, the reduce
sequence with copy_pages=true is each source page index 0..N-1, in
order, replicated W*H times consecutively, with total length N*W*H;
with copy_pages=false it is the identity order 0..N-1 padded at the
tail with blanks to a multiple of W*H. -/
theorem claim_reduce_sequence_spec (W H N : Nat) (hW : 1 ≤ W) (hH : 1 ≤ H) :
    get_sequence_for_reduce true (W * H) N =
        (List.range N).flatMap (fun p => List.replicate (W * H) (some p)) ∧
      (get_sequence_for_reduce true (W * H) N).length = N * (W * H) ∧
      get_sequence_for_reduce false (W * H) N =
        (List.range N).map (fun p => some p) ++
          List.replicate ((W * H - N % (W * H)) % (W * H)) none := by
  refine ⟨reduce_copy_closed (W * H) N, ?_,
    reduce_nocopy_closed (W * H) N (Nat.mul_pos hW hH)⟩
  rw [reduce_copy_closed, flatMap_replicate_length]

/-- Witness for C5 at grid 2x1 and 3 pages. -/
theorem claim_reduce_sequence_spec_witness :
    (1 ≤ 2 ∧ 1 ≤ 1) ∧
      (get_sequence_for_reduce true (2 * 1) 3 =
          (List.range 3).flatMap (fun p => List.replicate (2 * 1) (some p)) ∧
        (get_sequence_for_reduce true (2 * 1) 3).length = 3 * (2 * 1) ∧
        get_sequence_for_reduce false (2 * 1) 3 =
          (List.range 3).map (fun p => some p) ++
            List.replicate ((2 * 1 - 3 % (2 * 1)) % (2 * 1)) none) :=
  ⟨⟨by decide, by decide⟩,
   claim_reduce_sequence_spec 2 1 3 (by decide) (by decide)⟩

/-- C6: For the booklet/reduce direction with pagesInWidth equal to
twice pagesInHeight (layout 2x1 and its multiples): a portrait input
page together with a currently portrait output sheet makes the
reconciler swap the output width and height, so the output becomes
landscape and no error is raised; a landscape input page raises
MismatchingOrientationsError. -/
theorem claim_orientation_2x1 :
    (∀ (H iw ihh ow oh : Nat), iw < ihh → ow < oh →
        fix_page_orientation is_two_times (2 * H) H (orientationOf iw ihh)
            (ow, oh) =
          Except.ok (oh, ow) ∧ orientationOf oh ow = some LANDSCAPE) ∧
      (∀ (H iw ihh : Nat) (out : Nat × Nat), ihh < iw →
        fix_page_orientation is_two_times (2 * H) H (orientationOf iw ihh)
            out =
          Except.error (get_layout (2 * H) H)) := by
  constructor
  · intro H iw ihh ow oh h1 h2
    have hio : orientationOf iw ihh = some PORTRAIT := by
      simp [orientationOf, h1]
    have hoo : orientationOf ow oh = some PORTRAIT := by
      simp [orientationOf, h2]
    constructor
    · simp only [fix_page_orientation, is_two_times, hio, hoo]
      simp [set_output_orientation, PORTRAIT, LANDSCAPE, h2]
    · have hno : ¬ (ow > oh) := by omega
      simp [orientationOf, hno, h2, LANDSCAPE]
  · intro H iw ihh out h1
    have hio : orientationOf iw ihh = some LANDSCAPE := by
      have hno : ¬ (ihh > iw) := by omega
      simp [orientationOf, hno, h1]
    simp [fix_page_orientation, is_two_times, hio, PORTRAIT, LANDSCAPE]

/-- Witness for C6: portrait A5 input (420, 595) flips an initially
portrait A4 output sheet (595, 842) to landscape (842, 595); landscape
input (595, 420) raises the error. -/
theorem claim_orientation_2x1_witness :
    (420 < 595 ∧ 595 < 842 ∧
        fix_page_orientation is_two_times (2 * 1) 1 (orientationOf 420 595)
            (595, 842) =
          Except.ok (842, 595) ∧ orientationOf 842 595 = some LANDSCAPE) ∧
      (420 < 595 ∧
        fix_page_orientation is_two_times (2 * 1) 1 (orientationOf 595 420)
            (595, 842) =
          Except.error (get_layout (2 * 1) 1)) :=
  ⟨⟨by decide, by decide,
    (claim_orientation_2x1.1 1 420 595 595 842 (by decide) (by decide)).1,
    (claim_orientation_2x1.1 1 420 595 595 842 (by decide) (by decide)).2⟩,
   ⟨by decide, claim_orientation_2x1.2 1 595 420 (595, 842) (by decide)⟩⟩

/-- C7: set_output_format succeeds exactly on the keys of the
PAGE_FORMATS table (A3, A4, A5, Tabloid, Letter, Legal), setting the
output width and height from the table entry, and raises
UnknownFormatError on any other name, in particular on A2; the check is
a pure configuration-time lookup that consults no page data. -/
theorem claim_unknown_format_error :
    (∀ pf : String, (∃ w h, set_output_format pf = Except.ok (w, h)) ↔
        pf ∈ PAGE_FORMATS.map (fun e => e.fst)) ∧
      (∀ pf w h, (pf, w, h) ∈ PAGE_FORMATS →
        set_output_format pf = Except.ok (w, h)) ∧
      set_output_format "A2" = Except.error "A2" := by
  refine ⟨?_, ?_, rfl⟩
  · intro pf
    constructor
    · rintro ⟨w, h, hok⟩
      rw [set_output_format] at hok
      cases hf : PAGE_FORMATS.find? (fun e => e.fst == pf) with
      | none =>
        rw [hf] at hok
        simp at hok
      | some e =>
        have hmem := List.mem_of_find?_eq_some hf
        have hp := List.find?_some hf
        simp at hp
        rw [List.mem_map]
        exact ⟨e, hmem, hp⟩
    · intro hin
      rw [List.mem_map] at hin
      obtain ⟨e, hmem, hfst⟩ := hin
      have hsome : (PAGE_FORMATS.find? (fun x => x.fst == pf)).isSome := by
        rw [List.find?_isSome]
        exact ⟨e, hmem, by simp [hfst]⟩
      rw [set_output_format]
      cases hf : PAGE_FORMATS.find? (fun x => x.fst == pf) with
      | none =>
        rw [hf] at hsome
        simp at hsome
      | some e2 => exact ⟨e2.snd.fst, e2.snd.snd, rfl⟩
  · intro pf w h hmem
    fin_cases hmem <;> rfl

/-- Witness for C7 at the A4 entry of the table. -/
theorem claim_unknown_format_error_witness :
    ((("A4", 595, 842) : String × Nat × Nat) ∈ PAGE_FORMATS) ∧
      set_output_format "A4" = Except.ok (595, 842) :=
  ⟨by decide, claim_unknown_format_error.2.1 "A4" 595 842 (by decide)⟩

/-- C8: a sheet produced by the assembly loop is rotated 180 degrees
exactly when the two-sided flip is LONG_EDGE and its 0-based index is
odd; in particular with SHORT_EDGE no sheet is rotated, and bookletizing
a 4-page document with layout 2x1 and LONG_EDGE produces 2 sheets of
which only sheet index 1 is rotated. -/
theorem claim_long_edge_rotation :
    (∀ (seq : List (Option Nat)) (s : Nat) (flip : TwoSidedFlip)
        (sheets : List (List (Option Nat) × Bool)),
        do_reduce seq s flip = some sheets →
        ∀ (k : Nat) (hk : k < sheets.length),
          (sheets.get ⟨k, hk⟩).snd =
            (flip == TwoSidedFlip.longEdge && k % 2 == 1)) ∧
      get_sequence_for_booklet false (2 * 1) 4 =
        some [some 3, some 0, some 1, some 2] ∧
      do_reduce [some 3, some 0, some 1, some 2] (2 * 1)
          TwoSidedFlip.longEdge =
        some [([some 3, some 0], false), ([some 1, some 2], true)] ∧
      do_reduce [some 3, some 0, some 1, some 2] (2 * 1)
          TwoSidedFlip.shortEdge =
        some [([some 3, some 0], false), ([some 1, some 2], false)] := by
  refine ⟨?_, (booklet_closed_form (2 * 1) 4 rfl).trans (by decide),
    by decide, by decide⟩
  intro seq s flip sheets h k hk
  have key := do_reduce_loop_flags seq s flip seq.length 0 0 sheets h k hk
  simpa using key

/-- Witness for C8: the second sheet (index 1) of the 4-page, 2x1,
LONG_EDGE booklet carries the rotation flag. -/
theorem claim_long_edge_rotation_witness :
    (([([some 3, some 0], false), ([some 1, some 2], true)] :
        List (List (Option Nat) × Bool)).get ⟨1, by decide⟩).snd =
      (TwoSidedFlip.longEdge == TwoSidedFlip.longEdge && 1 % 2 == 1) :=
  claim_long_edge_rotation.1 [some 3, some 0, some 1, some 2] (2 * 1)
    TwoSidedFlip.longEdge _ (by decide) 1 (by decide)

/-- C9: get_output_format compares each table entry against the tuple of
the two getter METHOD OBJECTS rather than their results, so the
generator never finds a match and get_output_format never returns a
name (next() raises StopIteration), even when the output dimensions
exactly equal a table entry such as A4 = (595, 842). -/
theorem claim_get_output_format_never_returns :
    (∀ w h : Nat, get_output_format w h = none) ∧
      get_output_format 595 842 = none ∧
      (("A4", 595, 842) : String × Nat × Nat) ∈ PAGE_FORMATS :=
  ⟨fun _ _ => rfl, rfl, by decide⟩

/-- C10: a run of the orientation reconciler either raises
MismatchingOrientationsError or leaves the output (width, height) equal
to its prior value or its swap; in particular the set of the two
dimension values and the sheet area are never changed. -/
theorem claim_orientation_preserves_dims :
    ∀ (cmp : Nat → Nat → Bool) (W H : Nat) (io : Option Bool)
      (out r : Nat × Nat),
      fix_page_orientation cmp W H io out = Except.ok r →
      (r = out ∨ r = (out.snd, out.fst)) ∧
        r.fst * r.snd = out.fst * out.snd := by
  intro cmp W H io out r h
  have hset : ∀ t, set_output_orientation t out = out ∨
      set_output_orientation t out = (out.snd, out.fst) := by
    intro t
    rw [set_output_orientation]
    split
    · right
      rfl
    · left
      rfl
  have key : ∀ X : Nat × Nat, X = out ∨ X = (out.snd, out.fst) →
      (X = out ∨ X = (out.snd, out.fst)) ∧
        X.fst * X.snd = out.fst * out.snd := by
    intro X hX
    refine ⟨hX, ?_⟩
    rcases hX with rfl | rfl
    · rfl
    · simp [Nat.mul_comm]
  rw [fix_page_orientation] at h
  split_ifs at h <;> injection h with h2 <;> subst h2 <;>
    first
      | exact key _ (hset _)
      | exact key out (Or.inl rfl)

/-- Witness for C10: the portrait-to-landscape swap of a (595, 842)
sheet keeps the dimension pair and the area. -/
theorem claim_orientation_preserves_dims_witness :
    (((842, 595) : Nat × Nat) = (595, 842) ∨
        ((842, 595) : Nat × Nat) =
          (((595, 842) : Nat × Nat).snd, ((595, 842) : Nat × Nat).fst)) ∧
      ((842, 595) : Nat × Nat).fst * ((842, 595) : Nat × Nat).snd =
        ((595, 842) : Nat × Nat).fst * ((595, 842) : Nat × Nat).snd :=
  claim_orientation_preserves_dims is_two_times 2 1 (some PORTRAIT)
    (595, 842) (842, 595) rfl

end PdfImposer
